import Mathlib

set_option maxHeartbeats 1600000

/-!
Shallow embedding of titra's reporting/query-construction layer
(`imports/utils/server_method_helpers.js`): project-scope resolution,
aggregation-pipeline builders, the detailed-time-entries query builder,
the work-schedule mapper, the authentication gate, and the
Levenshtein-based similarity scorer.

JavaScript strings are modelled as Lean `String`/`List Char`, numbers as
`Int`/`Nat`/`ℚ` as appropriate, `undefined`-able values as `Option`,
MongoDB collections as Lean lists, and the selectors/pipelines the code
builds as dedicated inductive/structure types mirroring the exact object
shapes constructed by the source.
-/

/-- JavaScript-style character-exact test that `pat` occurs at the very
front of `l` (helper for `String.prototype.includes`). -/
def leadsWith : List Char → List Char → Bool
  | [], _ => true
  | _ :: _, [] => false
  | a :: as2, b :: bs => a = b && leadsWith as2 bs

/-- `subOccurs pat l`: `pat` occurs contiguously somewhere inside `l`. -/
def subOccurs (pat : List Char) : List Char → Bool
  | [] => leadsWith pat []
  | c :: cs => leadsWith pat (c :: cs) || subOccurs pat cs

/-- JavaScript `s.includes(pat)` for strings: substring containment. -/
def strIncludes (s pat : String) : Bool := subOccurs pat.data s.data

/-- A selector argument that is either a single id string or an array of id
strings (the JS code passes either shape for `projectId`, `userId`,
`customer`). -/
inductive IdArg
  | one (s : String)
  | many (l : List String)
deriving DecidableEq

/-- JavaScript `x.includes('all')`: substring test on a string, element
membership on an array (both called `.includes` in JS). -/
def IdArg.includes : IdArg → String → Bool
  | .one s, x => strIncludes s x
  | .many l, x => l.contains x

/-- JS truthiness of a possibly-`undefined` string (`undefined` and `''`
are falsy). -/
def optStrTruthy : Option String → Bool
  | none => false
  | some s => !s.isEmpty

/-- A project document (fields used by the scope resolvers):
`_id`, `userId` (creator/owner), `public`, `team`, `archived`
(optional, absent counts as not archived), `customer` (optional). -/
structure Project where
  _id : String
  userId : String
  public : Bool
  team : List String
  archived : Option Bool
  customer : Option String
deriving DecidableEq

/-- The ownership/visibility/archived predicate used verbatim in both
resolvers:
`$and: [ { $or: [{userId}, {public: true}, {team: userId}] },
         { $or: [{archived: false}, {archived: {$exists: false}}] } ]`. -/
def projectVisible (uid : String) (p : Project) : Bool :=
  (p.userId = uid || p.public || p.team.contains uid) &&
  (p.archived = some false || p.archived = none)

/-- `getProjectListById(projectId)` from `server_method_helpers.js`
(lines 26-56): when the argument `.includes('all')` every visible
non-archived project id is returned; otherwise the named id (or `$in`
array) is intersected with the same visibility predicate. `db` is the
`Projects` collection and `uid` is `Meteor.userId()`. -/
def getProjectListById (db : List Project) (uid : String) (projectId : IdArg) : List String :=
  if projectId.includes "all" then
    (db.filter (fun p => projectVisible uid p)).map (fun p => p._id)
  else
    match projectId with
    | .one s => (db.filter (fun p => p._id = s && projectVisible uid p)).map (fun p => p._id)
    | .many l => (db.filter (fun p => l.contains p._id && projectVisible uid p)).map (fun p => p._id)

/-- `getProjectListByCustomer(customer)` (lines 87-118): same visibility
predicate, additionally scoped to one customer or a set of customers
(`{customer}` / `{customer: {$in: …}}`); `'all'` drops the customer
clause. Returns the project documents (callers `.fetch().map(_id)`). -/
def getProjectListByCustomer (db : List Project) (uid : String) (customer : IdArg) : List Project :=
  if customer.includes "all" then
    db.filter (fun p => projectVisible uid p)
  else
    match customer with
    | .one c => db.filter (fun p => p.customer = some c && projectVisible uid p)
    | .many l =>
      db.filter (fun p =>
        (match p.customer with | some c => l.contains c | none => false) && projectVisible uid p)

/-- A resolved `{startDate, endDate}` pair (timestamps modelled as `Int`). -/
structure DateRange where
  startDate : Int
  endDate : Int
deriving DecidableEq

/-- Body of a `$match` stage as built by the aggregation builders:
`projectId: {$in: projectList}`, an optional inclusive date range, and
optionally the raw `userId` selector value (string or array) placed under
the `userId` key. -/
structure MatchBody where
  projectIds : List String
  date : Option DateRange
  userSel : Option IdArg
deriving DecidableEq

/-- One aggregation-pipeline stage, covering exactly the stage objects the
three aggregation builders construct.  `emptyStage` is the initial
`let matchSelector = {}` object, which is pushed unchanged when no branch
reassigns it. -/
inductive Stage
  | addFieldsConvertedHours
  | emptyStage
  | matchStage (m : MatchBody)
  | groupUserProject
  | groupUserProjectDate
  | groupUserDate
  | sortDateDesc
  | skipStage (n : Int)
  | limitStage (n : Int)
deriving DecidableEq

/-- `skipSelector.$skip`: initialised to `0`, set to `(page - 1) * limit`
when `page` is truthy (`if (page)` — JS `0`/`undefined` are falsy). -/
def pageSkip (page : Option Int) (limit : Int) : Int :=
  match page with
  | some p => if p ≠ 0 then (p - 1) * limit else 0
  | none => 0

/-- The `matchSelector` computed by `buildTotalHoursForPeriodSelector`
(lines 165-204).  `ptd` models the imported `periodToDates` resolver.
Note the absent final `else`: with a falsy-or-`'all'` period and a
non-`'all'` user selector, `matchSelector` keeps its initial `{}` value. -/
def totalHoursMatch (projectList : List String) (period : Option String)
    (dates : DateRange) (ptd : Option String → DateRange) (userId : IdArg) : Stage :=
  if optStrTruthy period && strIncludes (period.getD "") "custom" then
    if userId.includes "all" then
      Stage.matchStage ⟨projectList, some dates, none⟩
    else
      Stage.matchStage ⟨projectList, some dates, some userId⟩
  else if optStrTruthy period && period ≠ some "all" then
    if userId.includes "all" then
      Stage.matchStage ⟨projectList, some (ptd period), none⟩
    else
      Stage.matchStage ⟨projectList, some (ptd period), some userId⟩
  else if userId.includes "all" then
    Stage.matchStage ⟨projectList, none, none⟩
  else
    Stage.emptyStage

/-- `buildTotalHoursForPeriodSelector(projectId, period, dates, userId,
customer, limit, page)` (lines 131-214): decimal-cast `$addFields`, the
match selector, `$group` by (userId, projectId), `$sort` by date
descending, `$skip`, and a `$limit` stage only when `limit > 0`.
Project scope comes from `getProjectListByCustomer` when the customer
selector is not `'all'`, else from `getProjectListById`. -/
def buildTotalHoursForPeriodSelector (db : List Project) (uid : String)
    (ptd : Option String → DateRange) (projectId : IdArg) (period : Option String)
    (dates : DateRange) (userId : IdArg) (customer : IdArg)
    (limit : Int) (page : Option Int) : List Stage :=
  let projectList :=
    if !(customer.includes "all") then
      (getProjectListByCustomer db uid customer).map (fun p => p._id)
    else
      getProjectListById db uid projectId
  [Stage.addFieldsConvertedHours,
   totalHoursMatch projectList period dates ptd userId,
   Stage.groupUserProject,
   Stage.sortDateDesc,
   Stage.skipStage (pageSkip page limit)] ++
  (if limit > 0 then [Stage.limitStage limit] else [])

/-- The `matchSelector` of `buildDailyHoursSelector` (lines 255-303); this
builder checks `period === 'custom'` exactly and has a final `else`
producing `{projectId: {$in: …}, userId}`. -/
def dailyHoursMatch (projectList : List String) (period : Option String)
    (dates : DateRange) (ptd : Option String → DateRange) (userId : IdArg) : Stage :=
  if optStrTruthy period && period = some "custom" then
    if userId.includes "all" then
      Stage.matchStage ⟨projectList, some dates, none⟩
    else
      Stage.matchStage ⟨projectList, some dates, some userId⟩
  else if optStrTruthy period && period ≠ some "all" then
    if userId.includes "all" then
      Stage.matchStage ⟨projectList, some (ptd period), none⟩
    else
      Stage.matchStage ⟨projectList, some (ptd period), some userId⟩
  else if userId.includes "all" then
    Stage.matchStage ⟨projectList, none, none⟩
  else
    Stage.matchStage ⟨projectList, none, some userId⟩

/-- `buildDailyHoursSelector` (lines 226-312): match, `$group` by
(userId, projectId, date), sort, skip, and `$limit` only when
`limit > 0`. -/
def buildDailyHoursSelector (db : List Project) (uid : String)
    (ptd : Option String → DateRange) (projectId : IdArg) (period : Option String)
    (dates : DateRange) (userId : IdArg) (customer : IdArg)
    (limit : Int) (page : Option Int) : List Stage :=
  let projectList :=
    if !(customer.includes "all") then
      (getProjectListByCustomer db uid customer).map (fun p => p._id)
    else
      getProjectListById db uid projectId
  [dailyHoursMatch projectList period dates ptd userId,
   Stage.groupUserProjectDate,
   Stage.sortDateDesc,
   Stage.skipStage (pageSkip page limit)] ++
  (if limit > 0 then [Stage.limitStage limit] else [])

/-- `buildworkingTimeSelector` (lines 323-405): same match construction as
the daily builder (with a final `else` carrying the user clause), grouped
by (userId, date); stage order is match, group, skip, sort, then the
conditional limit. -/
def buildworkingTimeSelector (db : List Project) (uid : String)
    (ptd : Option String → DateRange) (projectId : IdArg) (period : Option String)
    (dates : DateRange) (userId : IdArg) (limit : Int) (page : Option Int) : List Stage :=
  let projectList := getProjectListById db uid projectId
  [dailyHoursMatch projectList period dates ptd userId,
   Stage.groupUserDate,
   Stage.skipStage (pageSkip page limit),
   Stage.sortDateDesc] ++
  (if limit > 0 then [Stage.limitStage limit] else [])

/-- The character class of the escaping replace in line 458 of the source:
`/[-[\]{}()*+?.,\\/^$|#\s]/` (JS `\s` modelled by its ASCII members). -/
def escapeClass (c : Char) : Bool :=
  c = '-' || c = '[' || c = ']' || c = Char.ofNat 123 || c = Char.ofNat 125 ||
  c = '(' || c = ')' || c = '*' || c = '+' || c = '?' || c = '.' || c = ',' ||
  c = '\\' || c = '/' || c = '^' || c = '$' || c = '|' || c = '#' ||
  c = ' ' || c = '\t' || c = '\n' || c = '\r' || c = Char.ofNat 11 || c = Char.ofNat 12

/-- `search.replace(/[-[\]{}()*+?.,\\/^$|#\s]/g, '\\$&')`: a backslash is
inserted before every character of the class. -/
def escapeRegexChars : List Char → List Char
  | [] => []
  | c :: cs => if escapeClass c then '\\' :: c :: escapeRegexChars cs else c :: escapeRegexChars cs

/-- The `$regex` pattern string interpolated in line 458:
`.*${escaped search}.*`. -/
def taskRegexPattern (search : String) : String :=
  ⟨('.' :: '*' :: escapeRegexChars search.data) ++ ['.', '*']⟩

/-- Regex syntax characters of the ECMAScript pattern grammar. -/
def regexMeta : List Char :=
  ['^', '$', '\\', '.', '*', '+', '?', '(', ')', '[', ']', Char.ofNat 123, Char.ofNat 125, '|']

/-- Tokens of the regex fragment the task-search pattern lives in:
literal characters, `.`, and the starred forms `c*` / `.*`. -/
inductive RTok
  | lit (c : Char)
  | anyChar
  | starLit (c : Char)
  | starAny
deriving DecidableEq

/-- Lexer for that regex fragment: `\c` is the escaped literal `c`
(optionally starred), an unescaped `.` is the wildcard (optionally
starred), any other unescaped syntax character is outside the fragment
(`none`), and remaining characters are literals. -/
def lexPat : List Char → Option (List RTok)
  | [] => some []
  | c :: rest =>
    if c = '\\' then
      match rest with
      | [] => none
      | d :: rest2 =>
        match rest2 with
        | e :: rest3 =>
          if e = '*' then (lexPat rest3).map (fun ts => RTok.starLit d :: ts)
          else (lexPat (e :: rest3)).map (fun ts => RTok.lit d :: ts)
        | [] => (lexPat []).map (fun ts => RTok.lit d :: ts)
    else if c = '.' then
      match rest with
      | e :: rest2 =>
        if e = '*' then (lexPat rest2).map (fun ts => RTok.starAny :: ts)
        else (lexPat (e :: rest2)).map (fun ts => RTok.anyChar :: ts)
      | [] => (lexPat []).map (fun ts => RTok.anyChar :: ts)
    else if regexMeta.contains c then none
    else
      match rest with
      | e :: rest2 =>
        if e = '*' then (lexPat rest2).map (fun ts => RTok.starLit c :: ts)
        else (lexPat (e :: rest2)).map (fun ts => RTok.lit c :: ts)
      | [] => (lexPat []).map (fun ts => RTok.lit c :: ts)

/-- Case-insensitive character comparison (the `$options: 'i'` flag). -/
def ciEq (a b : Char) : Bool := a.toLower = b.toLower

/-- Kleene-star loop for a literal token: consume any number of
`ciEq c`-characters, then match the continuation. -/
def starLoopLit (c : Char) (next : List Char → Bool) : List Char → Bool
  | [] => next []
  | d :: ds => next (d :: ds) || (ciEq c d && starLoopLit c next ds)

/-- Kleene-star loop for the wildcard: drop any number of characters,
then match the continuation. -/
def starLoopAny (next : List Char → Bool) : List Char → Bool
  | [] => next []
  | d :: ds => next (d :: ds) || starLoopAny next ds

/-- Whole-string matching semantics of the token list (case-insensitive,
per the `'i'` option). -/
def rmatch : List RTok → List Char → Bool
  | [], s => s.isEmpty
  | RTok.lit _ :: _, [] => false
  | RTok.lit c :: ts, d :: ds => ciEq c d && rmatch ts ds
  | RTok.anyChar :: _, [] => false
  | RTok.anyChar :: ts, _ :: ds => rmatch ts ds
  | RTok.starLit c :: ts, s => starLoopLit c (rmatch ts) s
  | RTok.starAny :: ts, s => starLoopAny (rmatch ts) s

/-- `ciHead s t`: `s` is a case-insensitive prefix of `t`. -/
def ciHead : List Char → List Char → Bool
  | [], _ => true
  | _ :: _, [] => false
  | c :: cs, d :: ds => ciEq c d && ciHead cs ds

/-- `ciContains s t`: `t` contains `s` as a contiguous case-insensitive
substring. -/
def ciContains (s : List Char) : List Char → Bool
  | [] => ciHead s []
  | d :: ds => ciHead s (d :: ds) || ciContains s ds

/-- A user clause of the detailed query: exact match or `$in` membership
(lines 511-517 distinguish arrays from single ids). -/
inductive UserClause
  | eq (s : String)
  | inList (l : List String)
deriving DecidableEq

/-- The base `query` object of
`buildDetailedTimeEntriesForPeriodSelector`: project scope as `$in`,
optional `task: {$regex: …, $options: 'i'}` (the pattern string),
optional date range, optional user clause. -/
structure BaseQuery where
  projectIds : List String
  task : Option String
  date : Option DateRange
  userSel : Option UserClause
deriving DecidableEq

/-- A raw `filters` map value: the source treats string-typed and
number-typed values differently (`date`, `hours`). -/
inductive FilterVal
  | str (s : String)
  | num (n : Int)
deriving DecidableEq

/-- One processed filter entry after the mutation loop of lines 519-544:
a `customer` key becomes a project-id `$in`, `state: 'new'` becomes the
exists-or-new `$or`, a string `date` is expanded to a whole-day range,
a string `hours` is coerced to a number, anything else passes through. -/
inductive ProcFilter
  | projectIn (ids : List String)
  | stateNewOr
  | dateRange (r : DateRange)
  | keyNum (k : String) (n : Int)
  | keyVal (k : String) (v : FilterVal)
deriving DecidableEq

/-- The filter-mutation loop (lines 521-540).  `parseDay` models
`dayjs(value, getGlobalSetting('dateformat')).startOf('day')` /
`.endOf('day')` and `toNum` models JS `Number()` coercion. -/
def processFilters (db : List Project) (uid : String)
    (parseDay : String → DateRange) (toNum : String → Int) :
    List (String × FilterVal) → List ProcFilter
  | [] => []
  | (k, v) :: rest =>
    (if k = "customer" then
      match v with
      | FilterVal.str s =>
        ProcFilter.projectIn ((getProjectListByCustomer db uid (IdArg.one s)).map (fun p => p._id))
      | FilterVal.num _ => ProcFilter.keyVal k v
    else if k = "state" then
      match v with
      | FilterVal.str s => if s = "new" then ProcFilter.stateNewOr else ProcFilter.keyVal k v
      | FilterVal.num _ => ProcFilter.keyVal k v
    else if k = "date" then
      match v with
      | FilterVal.str s => ProcFilter.dateRange (parseDay s)
      | FilterVal.num _ => ProcFilter.keyVal k v
    else if k = "hours" then
      match v with
      | FilterVal.str s => ProcFilter.keyNum k (toNum s)
      | FilterVal.num _ => ProcFilter.keyVal k v
    else ProcFilter.keyVal k v) :: processFilters db uid parseDay toNum rest

/-- The final query: the base query alone, or
`{$and: [query, processedFilters]}` when a `filters` map was supplied. -/
inductive FinalQuery
  | plain (q : BaseQuery)
  | withFilters (q : BaseQuery) (fs : List ProcFilter)
deriving DecidableEq

/-- The base query component of a final query. -/
def FinalQuery.baseQuery : FinalQuery → BaseQuery
  | .plain q => q
  | .withFilters q _ => q

/-- The `sort` argument `{column, order}`. -/
structure SortSpec where
  column : Int
  order : String
deriving DecidableEq

/-- The `options` object: `sort` (field → ±1), optional `limit`
(set only when `limit > 0`), optional `skip` (set only when `page` is
truthy). -/
structure FindOptions where
  sort : List (String × Int)
  limit : Option Int
  skip : Option Int
deriving DecidableEq

/-- The `[finalQuery, options]` pair returned by the detailed builder. -/
structure DetailedSelector where
  query : FinalQuery
  options : FindOptions
deriving DecidableEq

/-- The named-argument bundle of
`buildDetailedTimeEntriesForPeriodSelector({projectId, search, customer,
period, dates, userId, limit, page, sort, filters})`. -/
structure DetailedArgs where
  projectId : IdArg
  search : Option String
  customer : IdArg
  period : Option String
  dates : DateRange
  userId : IdArg
  limit : Int
  page : Option Int
  sort : Option SortSpec
  filters : Option (List (String × FilterVal))

/-- `buildDetailedTimeEntriesForPeriodSelector` (lines 448-548).  Project
scope: `getProjectListById(projectId)`, overridden by
`getProjectListByCustomer(customer)` only when the customer selector is
not `'all'` AND `projectId.includes('all')`.  Truthy `search` adds the
escaped case-insensitive task regex.  Sort columns map
{0: projectId, 1: date, 2: task, 3: userId, 4: hours}, default `date`;
order `'asc'` → 1, anything else → -1.  `options.limit` only when
`limit > 0`; `options.skip = (page - 1) * limit` when `page` is truthy.
Date scope: `dates` for `'custom'`, `periodToDates` (modelled by `ptd`)
unless the period is exactly `'all'`. -/
def buildDetailedTimeEntriesForPeriodSelector (db : List Project) (uid : String)
    (ptd : Option String → DateRange) (parseDay : String → DateRange)
    (toNum : String → Int) (a : DetailedArgs) : DetailedSelector :=
  let projectList :=
    if !(a.customer.includes "all") && a.projectId.includes "all" then
      (getProjectListByCustomer db uid a.customer).map (fun p => p._id)
    else
      getProjectListById db uid a.projectId
  let task : Option String :=
    match a.search with
    | some s => if !s.isEmpty then some (taskRegexPattern s) else none
    | none => none
  let sortList : List (String × Int) :=
    match a.sort with
    | some so =>
      let field :=
        if so.column = 0 then "projectId"
        else if so.column = 1 then "date"
        else if so.column = 2 then "task"
        else if so.column = 3 then "userId"
        else if so.column = 4 then "hours"
        else "date"
      let order : Int := if so.order = "asc" then 1 else -1
      [(field, order)]
    | none => [("date", -1)]
  let limitOpt : Option Int := if a.limit > 0 then some a.limit else none
  let skipOpt : Option Int :=
    match a.page with
    | some p => if p ≠ 0 then some ((p - 1) * a.limit) else none
    | none => none
  let dateCl : Option DateRange :=
    if a.period = some "custom" then some a.dates
    else if a.period ≠ some "all" then some (ptd a.period)
    else none
  let userCl : Option UserClause :=
    if a.userId.includes "all" then none
    else match a.userId with
      | IdArg.many l => some (UserClause.inList l)
      | IdArg.one s => some (UserClause.eq s)
  let q : BaseQuery := ⟨projectList, task, dateCl, userCl⟩
  let fq : FinalQuery :=
    match a.filters with
    | some fs => FinalQuery.withFilters q (processFilters db uid parseDay toNum fs)
    | none => FinalQuery.plain q
  ⟨fq, ⟨sortList, limitOpt, skipOpt⟩⟩

/-- Per-user profile settings consulted by the work-schedule mapper
(each optional: absent fields fall back to global settings — see
`workingTimeEntriesMapper` for how the source actually handles that
fallback). -/
structure Profile where
  name : Option String
  dailyStartTime : Option String
  breakStartTime : Option String
  breakDuration : Option Int
  regularWorkingTime : Option Int
deriving DecidableEq

/-- A `Meteor.users` document (fields used here). -/
structure MUser where
  _id : String
  inactive : Bool
  profile : Option Profile
deriving DecidableEq

/-- `Meteor.users.findOneAsync({_id: uid})`. -/
def findUser (users : List MUser) (uid : String) : Option MUser :=
  users.find? (fun u => u._id = uid)

/-- The method invocation context (`this`): `userId` is `undefined` for
unauthenticated calls. -/
structure MethodContext where
  userId : Option String
deriving DecidableEq

/-- `checkAuthentication(context)` (lines 62-67): looks up the user and
throws `notifications.auth_error_method` when `!context.userId` or the
found record is inactive (`meteorUser?.inactive` — via optional chaining,
a *missing* record contributes `undefined`, which is falsy, so a present
but unknown `userId` passes the check). -/
def checkAuthentication (users : List MUser) (ctx : MethodContext) : Except String Unit :=
  let meteorUser :=
    match ctx.userId with
    | some uid => findUser users uid
    | none => none
  if !(optStrTruthy ctx.userId) ||
      (match meteorUser with | some u => u.inactive | none => false) then
    Except.error "notifications.auth_error_method"
  else
    Except.ok ()

/-- Boolean test that an authentication result is the thrown error. -/
def authThrew : Except String Unit → Bool
  | Except.error _ => true
  | Except.ok _ => false

/-- `authenticationMixin(methodOptions)` (lines 549-556) wraps the
method's `run`: the rewritten `run` awaits `checkAuthentication(this)`
and only then calls the original body.  The body is modelled as a pure
state transformer `run : α → σ → σ × β`; on a thrown check, the state is
returned untouched and the error propagates. -/
def authenticationMixinRun {α σ β : Type} (users : List MUser) (ctx : MethodContext)
    (run : α → σ → σ × β) (args : α) (st : σ) : σ × Except String β :=
  match checkAuthentication users ctx with
  | Except.error e => (st, Except.error e)
  | Except.ok _ =>
    let r := run args st
    (r.1, Except.ok r.2)

/-- Two-digit zero-padded rendering of a number in `[0, 99]`. -/
def pad2 (n : Int) : String :=
  if n < 10 then "0" ++ toString n else toString n

/-- All-digit decimal value of a character list (`none` when empty or
non-digit). -/
def digitsVal : List Char → Option Nat
  | [] => none
  | l => l.foldl (fun acc c => match acc with
      | some v => if c.isDigit then some (v * 10 + (c.toNat - 48)) else none
      | none => none) (some 0)

/-- Split a character list at its unique `':'` (`none` when there is no
colon or more than one). -/
def splitAtColon : List Char → Option (List Char × List Char)
  | [] => none
  | c :: cs =>
    if c = ':' then
      if cs.contains ':' then none else some ([], cs)
    else
      (splitAtColon cs).map (fun p => (c :: p.1, p.2))

/-- `dayjs(s, 'HH:mm')` on a well-formed time-of-day string: minutes
since midnight, `none` = Invalid Date. -/
def parseHHmm (s : String) : Option Int :=
  match splitAtColon s.data with
  | some (h, m) =>
    match digitsVal h, digitsVal m with
    | some hh, some mm => if hh < 24 && mm < 60 then some (hh * 60 + mm) else none
    | _, _ => none
  | none => none

/-- `dayjs.format('HH:mm')`: wraps past midnight; an invalid value
formats as `Invalid Date`. -/
def fmtHHmm : Option Int → String
  | none => "Invalid Date"
  | some t =>
    let m := ((t % 1440) + 1440) % 1440
    pad2 (m / 60) ++ ":" ++ pad2 (m % 60)

/-- `a.isAfter(b)` (dayjs): strict, and false whenever either side is
invalid. -/
def isAfterOpt : Option Int → Option Int → Bool
  | some x, some y => y < x
  | _, _ => false

/-- `meteorUser?.profile?.field ? value : getGlobalSettingAsync(field)`
for string-valued settings.  The source does NOT await the global-setting
fallback (contrast line 420, which does), so the fallback value is a
pending Promise; `dayjs(promise, 'HH:mm')` is an Invalid Date and any
arithmetic on it stays invalid — modelled as `none`.  A falsy (empty)
profile string also selects the fallback. -/
def profStr (p : Option Profile) (f : Profile → Option String) : Option String :=
  match p with
  | some pr =>
    match f pr with
    | some s => if s.isEmpty then none else some s
    | none => none
  | none => none

/-- Same resolution for number-valued settings (`0` is falsy). -/
def profNum (p : Option Profile) (f : Profile → Option Int) : Option Int :=
  match p with
  | some pr =>
    match f pr with
    | some n => if n = 0 then none else some n
    | none => none
  | none => none

/-- One aggregated working-time record `{_id: {userId, date}, totalTime}`. -/
structure WTEntry where
  userId : String
  date : String
  totalTime : Int
deriving DecidableEq

/-- The object returned by `workingTimeEntriesMapper` (lines 423-433). -/
structure ScheduleEntry where
  date : String
  resource : Option String
  startTime : Option String
  breakStartTime : String
  breakEndTime : String
  endTime : String
  totalTime : Int
  regularWorkingTime : Option Int
  regularWorkingTimeDifference : Option Int
deriving DecidableEq

/-- `workingTimeEntriesMapper(entry)` (lines 411-434).  `addBreak` is the
awaited global `addBreakToWorkingTime` flag (line 420).  Every profile
fallback to `getGlobalSettingAsync` is an unawaited Promise in the
source, so those positions are invalid/NaN (`none`): `startTime` would
be the raw Promise, parsed times are Invalid, and
`Number(promise)`/`totalTime - promise` are NaN.  `endTime` is
`dailyStartTime + totalTime` hours (plus `breakDuration` hours when
`addBreak`); the break window is emitted only when `endTime.isAfter`
the break start. -/
def workingTimeEntriesMapper (users : List MUser) (addBreak : Bool)
    (entry : WTEntry) : ScheduleEntry :=
  let meteorUser := findUser users entry.userId
  let prof := meteorUser.bind (fun u => u.profile)
  let userBreakStartTime : Option Int := (profStr prof (fun pr => pr.breakStartTime)).bind parseHHmm
  let userBreakDuration : Option Int := profNum prof (fun pr => pr.breakDuration)
  let userBreakEndTime : Option Int :=
    match userBreakStartTime, userBreakDuration with
    | some t, some d => some (t + 60 * d)
    | _, _ => none
  let userRegularWorkingTime : Option Int := profNum prof (fun pr => pr.regularWorkingTime)
  let userStartTime : Option String := profStr prof (fun pr => pr.dailyStartTime)
  let endBase : Option Int := (userStartTime.bind parseHHmm).map (fun t => t + 60 * entry.totalTime)
  let userEndTime : Option Int :=
    if addBreak then
      match endBase, userBreakDuration with
      | some t, some d => some (t + 60 * d)
      | _, _ => none
    else endBase
  { date := entry.date
    resource := prof.bind (fun pr => pr.name)
    startTime := userStartTime
    breakStartTime := if isAfterOpt userEndTime userBreakStartTime then fmtHHmm userBreakStartTime else ""
    breakEndTime := if isAfterOpt userEndTime userBreakStartTime then fmtHHmm userBreakEndTime else ""
    endTime := fmtHHmm userEndTime
    totalTime := entry.totalTime
    regularWorkingTime := userRegularWorkingTime
    regularWorkingTimeDifference := userRegularWorkingTime.map (fun r => entry.totalTime - r) }

/-- Helper realising the textbook Levenshtein recurrence for a fixed first
string extended by one character: `levSpecAux (levenshteinSpec xs) x ys` is the
distance between `x :: xs` and `ys` (structural in `ys`). -/
def levSpecAux (f : List Char → Nat) (x : Char) : List Char → Nat
  | [] => f [] + 1
  | y :: ys =>
    if x = y then f ys
    else min (min (f ys) (levSpecAux f x ys)) (f (y :: ys)) + 1

/-- Reference definition (from the specification, not the source): the
Levenshtein distance — minimum number of single-character insertions,
deletions and substitutions turning one string into the other, via the
classic recurrence: distance to/from an empty string is the other
string's length, and for `x :: xs` vs `y :: ys` it is `d(xs, ys)` when
`x = y`, else `1 + min (d(xs, ys)) (d(x :: xs, ys)) (d(xs, y :: ys))`
(substitute / insert / delete). -/
def levenshteinSpec : List Char → List Char → Nat
  | [], ys => ys.length
  | x :: xs, ys => levSpecAux (levenshteinSpec xs) x ys

/-- One outer-loop iteration of `editDistance` (lines 599-611), the inner
`j` loop in functional form: given the current character `c` of the first
string, the remaining characters of the second string, the segment of
`costs` from index `j - 1` on (previous row values), and `lastValue`
(the already-computed new value for column `j - 1`), produce the
finalised new-row segment.  `newValue = costs[j-1]` when the characters
match, else `Math.min(Math.min(newValue, lastValue), costs[j]) + 1`;
`costs[j-1] = lastValue` is the emitted cell and `lastValue = newValue`
threads forward; the trailing `costs[s2.length] = lastValue` is the final
singleton. -/
def nextRow (c : Char) : List Char → List Nat → Nat → List Nat
  | y :: ys, pPrev :: prest, lastV =>
    let pCur := prest.headD 0
    let nv := if c = y then pPrev else min (min pPrev lastV) pCur + 1
    lastV :: nextRow c ys prest nv
  | _, _, lastV => [lastV]

/-- The outer `i` loop of `editDistance` for `i ≥ 1`: fold the rows over
the characters of the first string, threading the row and the row index
(`lastValue` starts at `i`). -/
def levLoop (s2 : List Char) : List Char → List Nat → Nat → List Nat
  | [], row, _ => row
  | c :: cs, row, i => levLoop s2 cs (nextRow c s2 row i) (i + 1)

/-- `editDistance(string1, string2)` (lines 592-615): lower-case both
strings (`toLowerCase` modelled per character), run the `i = 0` pass
(`costs[j] = j`, i.e. `List.range`), then the rolling-row loop, and read
`costs[s2.length]`. -/
def editDistance (string1 string2 : String) : Nat :=
  let s1 := string1.data.map Char.toLower
  let s2 := string2.data.map Char.toLower
  (levLoop s2 s1 (List.range (s2.length + 1)) 1).getD s2.length 0

/-- `calculateSimilarity(s1, s2)` (lines 623-638): `0` when either input
is falsy (`undefined` or `''`); otherwise the longer/shorter pair is
chosen by length and the result is
`(longerLength - editDistance(longer, shorter)) / longerLength`
(JS float division modelled in `ℚ`; the `longerLength === 0` branch is
kept although it is unreachable past the truthiness test). -/
def calculateSimilarity (s1 s2 : Option String) : ℚ :=
  if optStrTruthy s1 && optStrTruthy s2 then
    let a := s1.getD ""
    let b := s2.getD ""
    let longer := if a.length < b.length then b else a
    let shorter := if a.length < b.length then a else b
    let longerLength := longer.length
    if longerLength = 0 then 1
    else ((longerLength : ℚ) - (editDistance longer shorter : ℚ)) / (longerLength : ℚ)
  else 0

/-- Proof helper: the row of prefix distances
`[levenshteinSpec p done, levenshteinSpec p (done ++ [y₁]), …]` for the
successive prefixes of `done ++ rest` extending `done`. -/
def distRow (p : List Char) : List Char → List Char → List Nat
  | done, [] => [levenshteinSpec p done]
  | done, y :: ys => levenshteinSpec p done :: distRow p (done ++ [y]) ys

theorem lev_nil_left (ys : List Char) : levenshteinSpec [] ys = ys.length := rfl

theorem lev_nil_right (xs : List Char) : levenshteinSpec xs [] = xs.length := by
  induction xs with
  | nil => rfl
  | cons x xs ih => simp [levenshteinSpec, levSpecAux, ih]

theorem lev_cons_cons (x y : Char) (xs ys : List Char) :
    levenshteinSpec (x :: xs) (y :: ys) =
      if x = y then levenshteinSpec xs ys
      else min (min (levenshteinSpec xs ys) (levenshteinSpec (x :: xs) ys))
             (levenshteinSpec xs (y :: ys)) + 1 := by
  rfl

theorem min_transpose9 (g1 g2 g3 g4 g5 g6 g7 g8 g9 : Nat) :
    min (min (min (min g1 g4) g7 + 1) (min (min g2 g5) g8 + 1)) (min (min g3 g6) g9 + 1) + 1 =
    min (min (min (min g1 g2) g3 + 1) (min (min g4 g5) g6 + 1)) (min (min g7 g8) g9 + 1) + 1 := by
  have pull : ∀ x y : Nat, min (x + 1) (y + 1) = min x y + 1 := by
    intro x y; omega
  rw [pull, pull, pull, pull]
  have core : min (min (min (min g1 g4) g7) (min (min g2 g5) g8)) (min (min g3 g6) g9) =
      min (min (min (min g1 g2) g3) (min (min g4 g5) g6)) (min (min g7 g8) g9) := by
    ac_rfl
  rw [core]

theorem lev_append_fuel (a b : Char) : ∀ (n : Nat) (xs ys : List Char),
    xs.length + ys.length ≤ n →
    levenshteinSpec (xs ++ [a]) (ys ++ [b]) =
      if a = b then levenshteinSpec xs ys
      else min (min (levenshteinSpec xs ys) (levenshteinSpec (xs ++ [a]) ys))
             (levenshteinSpec xs (ys ++ [b])) + 1 := by
  intro n
  induction n with
  | zero =>
    intro xs ys h
    have hx : xs = [] := by cases xs <;> simp_all
    have hy : ys = [] := by cases ys <;> simp_all
    subst hx; subst hy
    simp only [List.nil_append, lev_cons_cons, lev_nil_left, lev_nil_right]
  | succ n ih =>
    intro xs ys h
    cases xs with
    | nil =>
      cases ys with
      | nil =>
        simp only [List.nil_append, lev_cons_cons, lev_nil_left, lev_nil_right]
      | cons y t =>
        have I1 := ih [] t (by simp only [List.length_nil, List.length_cons] at h ⊢; omega)
        simp only [List.nil_append] at I1
        simp only [List.nil_append, List.cons_append]
        rw [lev_cons_cons a y, lev_cons_cons a y, I1]
        simp only [lev_nil_left, List.length_cons, List.length_append, List.length_nil]
        split_ifs <;> omega
    | cons x p =>
      cases ys with
      | nil =>
        have I1 := ih p [] (by simp only [List.length_nil, List.length_cons] at h ⊢; omega)
        simp only [List.nil_append] at I1
        simp only [List.nil_append, List.cons_append]
        rw [lev_cons_cons x b, lev_cons_cons x b, I1]
        simp only [lev_nil_right, List.length_cons, List.length_append, List.length_nil]
        split_ifs <;> omega
      | cons y q =>
        have I1 := ih p q (by simp only [List.length_cons] at h ⊢; omega)
        have I2 := ih (x :: p) q (by simp only [List.length_cons] at h ⊢; omega)
        have I3 := ih p (y :: q) (by simp only [List.length_cons] at h ⊢; omega)
        simp only [List.cons_append] at I1 I2 I3 ⊢
        rw [lev_cons_cons x y (p ++ [a]) (q ++ [b]), I1, I2, I3,
            lev_cons_cons x y p q, lev_cons_cons x y (p ++ [a]) q,
            lev_cons_cons x y p (q ++ [b])]
        split_ifs <;>
          first
            | rfl
            | exact min_transpose9 _ _ _ _ _ _ _ _ _

theorem lev_append (a b : Char) (xs ys : List Char) :
    levenshteinSpec (xs ++ [a]) (ys ++ [b]) =
      if a = b then levenshteinSpec xs ys
      else min (min (levenshteinSpec xs ys) (levenshteinSpec (xs ++ [a]) ys))
             (levenshteinSpec xs (ys ++ [b])) + 1 :=
  lev_append_fuel a b (xs.length + ys.length) xs ys le_rfl

theorem distRow_headD (p done rest : List Char) :
    (distRow p done rest).headD 0 = levenshteinSpec p done := by
  cases rest <;> simp [distRow]

theorem nextRow_distRow (c : Char) (p : List Char) : ∀ (rest done : List Char),
    nextRow c rest (distRow p done rest) (levenshteinSpec (p ++ [c]) done) =
    distRow (p ++ [c]) done rest := by
  intro rest
  induction rest with
  | nil => intro done; simp [distRow, nextRow]
  | cons y ys ih =>
    intro done
    simp only [distRow, nextRow, distRow_headD]
    rw [← lev_append c y p done]
    rw [ih (done ++ [y])]

theorem nextRow_distRowV (c : Char) (p rest done : List Char) (lastV : Nat)
    (h : lastV = levenshteinSpec (p ++ [c]) done) :
    nextRow c rest (distRow p done rest) lastV = distRow (p ++ [c]) done rest := by
  subst h; exact nextRow_distRow c p rest done

theorem levLoop_distRow (s2 : List Char) : ∀ (cs p : List Char),
    levLoop s2 cs (distRow p [] s2) (p.length + 1) = distRow (p ++ cs) [] s2 := by
  intro cs
  induction cs with
  | nil => intro p; simp [levLoop]
  | cons c cs ih =>
    intro p
    rw [levLoop, nextRow_distRowV c p s2 [] (p.length + 1) (by rw [lev_nil_right]; simp)]
    have h2 := ih (p ++ [c])
    simp only [List.length_append, List.length_cons, List.length_nil, Nat.zero_add] at h2
    rw [h2]
    simp [List.append_assoc]

theorem distRow_nil (rest : List Char) : ∀ done : List Char,
    distRow [] done rest = (List.range (rest.length + 1)).map (fun j => done.length + j) := by
  induction rest with
  | nil => intro done; simp [distRow, lev_nil_left, List.range_succ]
  | cons y ys ih =>
    intro done
    rw [distRow, ih (done ++ [y])]
    apply List.ext_getElem
    · simp
    · intro i h1 h2
      cases i with
      | zero => simp [lev_nil_left]
      | succ i =>
        simp only [List.getElem_cons_succ, List.getElem_map, List.getElem_range,
          List.length_append, List.length_cons, List.length_nil]
        omega

theorem distRow_getD (p : List Char) : ∀ (rest done : List Char),
    (distRow p done rest).getD rest.length 0 = levenshteinSpec p (done ++ rest) := by
  intro rest
  induction rest with
  | nil => intro done; simp [distRow]
  | cons y ys ih =>
    intro done
    simp only [distRow, List.length_cons, List.getD_cons_succ, ih (done ++ [y])]
    simp

theorem editDistance_eq_lev (a b : String) :
    editDistance a b =
      levenshteinSpec (a.data.map Char.toLower) (b.data.map Char.toLower) := by
  simp only [editDistance]
  have h0 : List.range ((b.data.map Char.toLower).length + 1) =
      distRow [] [] (b.data.map Char.toLower) := by
    rw [distRow_nil]
    simp
  rw [h0]
  have h1 := levLoop_distRow (b.data.map Char.toLower) (a.data.map Char.toLower) []
  simp only [List.length_nil, Nat.zero_add, List.nil_append] at h1
  rw [h1, distRow_getD]
  simp

theorem lev_comm_fuel : ∀ (n : Nat) (xs ys : List Char), xs.length + ys.length ≤ n →
    levenshteinSpec xs ys = levenshteinSpec ys xs := by
  intro n
  induction n with
  | zero =>
    intro xs ys h
    have hx : xs = [] := by cases xs <;> simp_all
    have hy : ys = [] := by cases ys <;> simp_all
    subst hx; subst hy; rfl
  | succ n ih =>
    intro xs ys h
    cases xs with
    | nil => rw [lev_nil_left, lev_nil_right]
    | cons x p =>
      cases ys with
      | nil => rw [lev_nil_left, lev_nil_right]
      | cons y q =>
        have I1 := ih p q (by simp only [List.length_cons] at h ⊢; omega)
        have I2 := ih p (y :: q) (by simp only [List.length_cons] at h ⊢; omega)
        have I3 := ih (x :: p) q (by simp only [List.length_cons] at h ⊢; omega)
        rw [lev_cons_cons x y, lev_cons_cons y x, ← I1, ← I2, ← I3]
        by_cases hxy : x = y
        · simp [hxy]
        · rw [if_neg hxy, if_neg (fun hyx => hxy hyx.symm)]
          have : min (min (levenshteinSpec p q) (levenshteinSpec (x :: p) q))
              (levenshteinSpec p (y :: q)) =
              min (min (levenshteinSpec p q) (levenshteinSpec p (y :: q)))
              (levenshteinSpec (x :: p) q) := by
            ac_rfl
          rw [this]

theorem editDistance_comm (a b : String) : editDistance a b = editDistance b a := by
  rw [editDistance_eq_lev, editDistance_eq_lev]
  exact lev_comm_fuel _ _ _ le_rfl

theorem lexPat_escaped_cons (c e : Char) (es : List Char) (h4 : e ≠ '*') :
    lexPat ('\\' :: c :: e :: es) = (lexPat (e :: es)).map (fun ts => RTok.lit c :: ts) := by
  simp [lexPat, h4]

theorem lexPat_dotStar (rest : List Char) :
    lexPat ('.' :: '*' :: rest) = (lexPat rest).map (fun ts => RTok.starAny :: ts) := by
  rw [lexPat.eq_def]
  simp

theorem lexPat_plain_cons (c e : Char) (es : List Char) (h1 : c ≠ '\\') (h2 : c ≠ '.')
    (h3 : regexMeta.contains c = false) (h4 : e ≠ '*') :
    lexPat (c :: e :: es) = (lexPat (e :: es)).map (fun ts => RTok.lit c :: ts) := by
  rw [lexPat.eq_def]
  simp [h1, h2, h3, h4]
  intro hmem
  rw [← List.elem_iff] at hmem
  simp [List.contains] at h3
  simp_all

theorem regexMeta_escaped (c : Char) (h : escapeClass c = false) :
    regexMeta.contains c = false := by
  by_contra hc
  rw [Bool.not_eq_false] at hc
  have hm : c ∈ regexMeta := by
    rw [← List.elem_iff]
    simpa [List.contains] using hc
  fin_cases hm <;> simp_all [escapeClass]

theorem escHead_ne_star (cs : List Char) : ∀ (e : Char) (es : List Char),
    escapeRegexChars cs ++ ['.', '*'] = e :: es → e ≠ '*' := by
  cases cs with
  | nil =>
    intro e es h he
    subst he
    simp [escapeRegexChars] at h
  | cons c cs =>
    intro e es h he
    subst he
    by_cases hc : escapeClass c
    · rw [escapeRegexChars.eq_def] at h
      simp only [hc, if_true, List.cons_append, List.cons.injEq] at h
      exact absurd h.1.symm (by decide)
    · rw [escapeRegexChars.eq_def] at h
      simp only [hc, Bool.false_eq_true, if_false, List.cons_append, List.cons.injEq] at h
      rw [h.1] at hc
      exact hc (by decide)

theorem lexEsc : ∀ s : List Char,
    lexPat (escapeRegexChars s ++ ['.', '*']) =
      some (s.map RTok.lit ++ [RTok.starAny]) := by
  intro s
  induction s with
  | nil => decide
  | cons c cs ih =>
    obtain ⟨e, es, hees⟩ : ∃ e es, escapeRegexChars cs ++ ['.', '*'] = e :: es := by
      cases hEC : escapeRegexChars cs with
      | nil => exact ⟨'.', ['*'], by simp [hEC]⟩
      | cons a l => exact ⟨a, l ++ ['.', '*'], by simp [hEC]⟩
    have hne : e ≠ '*' := escHead_ne_star cs e es hees
    by_cases hc : escapeClass c
    · rw [escapeRegexChars.eq_def]
      simp only [hc, if_true, List.cons_append]
      rw [hees, lexPat_escaped_cons c e es hne, ← hees, ih]
      simp
    · have h1 : c ≠ '\\' := fun hh => by rw [hh] at hc; exact hc (by decide)
      have h2 : c ≠ '.' := fun hh => by rw [hh] at hc; exact hc (by decide)
      have h3 : regexMeta.contains c = false := regexMeta_escaped c (by simpa using hc)
      rw [escapeRegexChars.eq_def]
      simp only [hc, Bool.false_eq_true, if_false, List.cons_append]
      rw [hees, lexPat_plain_cons c e es h1 h2 h3 hne, ← hees, ih]
      simp

theorem lexPat_taskPattern (s : List Char) :
    lexPat (taskRegexPattern (String.mk s)).data =
      some (RTok.starAny :: (s.map RTok.lit ++ [RTok.starAny])) := by
  show lexPat ('.' :: '*' :: (escapeRegexChars s ++ ['.', '*'])) = _
  rw [lexPat_dotStar, lexEsc]
  rfl

theorem starLoopAny_nilToks (t : List Char) :
    starLoopAny (rmatch []) t = true := by
  induction t with
  | nil => rfl
  | cons d ds ih =>
    simp only [starLoopAny, ih, Bool.or_true]

theorem rmatch_lits_starAny (s : List Char) : ∀ t : List Char,
    rmatch (s.map RTok.lit ++ [RTok.starAny]) t = ciHead s t := by
  induction s with
  | nil =>
    intro t
    simp only [List.map_nil, List.nil_append, ciHead]
    show starLoopAny (rmatch []) t = true
    exact starLoopAny_nilToks t
  | cons c cs ih =>
    intro t
    cases t with
    | nil => rfl
    | cons d ds => simp [rmatch, ciHead, ih ds]

theorem rmatch_taskToks (s : List Char) : ∀ t : List Char,
    rmatch (RTok.starAny :: (s.map RTok.lit ++ [RTok.starAny])) t = ciContains s t := by
  intro t
  induction t with
  | nil =>
    show starLoopAny (rmatch (s.map RTok.lit ++ [RTok.starAny])) [] = ciContains s []
    simp [starLoopAny, ciContains, rmatch_lits_starAny s]
  | cons d ds ih =>
    show starLoopAny (rmatch (s.map RTok.lit ++ [RTok.starAny])) (d :: ds) = ciContains s (d :: ds)
    simp only [starLoopAny, ciContains, rmatch_lits_starAny s]
    have ih2 : starLoopAny (rmatch (s.map RTok.lit ++ [RTok.starAny])) ds = ciContains s ds := ih
    rw [ih2]

theorem str_length_ne_zero (s : String) (h : s ≠ "") : s.length ≠ 0 := by
  intro h0
  apply h
  cases s with
  | mk data =>
    cases data with
    | nil => rfl
    | cons c cs => simp [String.length] at h0

theorem str_isEmpty_false (s : String) (h : s ≠ "") : s.isEmpty = false := by
  rw [Bool.eq_false_iff]
  intro hemp
  exact h ((String.isEmpty_iff s).mp hemp)

/-- C7: `editDistance` computes the Levenshtein distance (the reference
`levenshteinSpec`) of the lower-cased inputs, for all strings; in
particular `editDistance "kitten" "sitting" = 3`. -/
theorem editDistance_levenshtein_correct :
    (∀ a b : String, editDistance a b =
      levenshteinSpec (a.data.map Char.toLower) (b.data.map Char.toLower))
    ∧ editDistance "kitten" "sitting" = 3
    ∧ levenshteinSpec "kitten".data "sitting".data = 3 :=
  ⟨editDistance_eq_lev, by decide, by decide⟩

/-- C8: `calculateSimilarity` returns `0` when either input is falsy
(absent or empty), otherwise `(maxLen - editDistance a b) / maxLen` with
`maxLen` the length of the longer string; and
`calculateSimilarity "kitten" "kitten" = 1`,
`calculateSimilarity "abc" "abd" = 2/3`. -/
theorem calculateSimilarity_formula :
    (∀ s1 s2 : Option String,
      (optStrTruthy s1 = false ∨ optStrTruthy s2 = false) →
      calculateSimilarity s1 s2 = 0)
    ∧ (∀ a b : String, a ≠ "" → b ≠ "" →
      calculateSimilarity (some a) (some b) =
        (((max a.length b.length : ℕ) : ℚ) - (editDistance a b : ℚ)) /
          ((max a.length b.length : ℕ) : ℚ))
    ∧ calculateSimilarity (some "kitten") (some "kitten") = 1
    ∧ calculateSimilarity (some "abc") (some "abd") = 2 / 3 := by
  refine ⟨?_, ?_, ?_, ?_⟩
  · intro s1 s2 h
    rcases h with h | h <;> simp [calculateSimilarity, h]
  · intro a b ha hb
    have ha' := str_isEmpty_false a ha
    have hb' := str_isEmpty_false b hb
    simp only [calculateSimilarity, optStrTruthy, ha', hb', Bool.not_false, Bool.and_self,
      if_true, Option.getD_some]
    by_cases hlt : a.length < b.length
    · rw [if_pos hlt, if_pos hlt, if_neg (str_length_ne_zero b hb),
        max_eq_right (Nat.le_of_lt hlt), editDistance_comm b a]
    · rw [if_neg hlt, if_neg hlt, if_neg (str_length_ne_zero a ha),
        max_eq_left (Nat.le_of_not_lt hlt)]
  · have h : editDistance "kitten" "kitten" = 0 := by decide
    have h1 : "kitten".isEmpty = false := by decide
    have h2 : "kitten".length = 6 := by decide
    simp [calculateSimilarity, optStrTruthy, h, h1, h2]
  · have h : editDistance "abc" "abd" = 1 := by decide
    have h1 : "abc".isEmpty = false := by decide
    have h2 : "abd".isEmpty = false := by decide
    have h3 : "abc".length = 3 := by decide
    have h4 : "abd".length = 3 := by decide
    simp [calculateSimilarity, optStrTruthy, h, h1, h2, h3, h4]
    norm_num

/-- Witness for C8 at concrete inputs: an absent first argument yields 0,
and the formula instantiated at `"abc"`/`"abd"`. -/
theorem calculateSimilarity_formula_witness :
    calculateSimilarity none (some "x") = 0 ∧
    calculateSimilarity (some "abc") (some "abd") =
      (((max "abc".length "abd".length : ℕ) : ℚ) - (editDistance "abc" "abd" : ℚ)) /
        ((max "abc".length "abd".length : ℕ) : ℚ) :=
  ⟨calculateSimilarity_formula.1 none (some "x") (Or.inl rfl),
   calculateSimilarity_formula.2.1 "abc" "abd" (by decide) (by decide)⟩

/-- C10: `calculateSimilarity` is commutative in its two arguments. -/
theorem calculateSimilarity_comm (s1 s2 : Option String) :
    calculateSimilarity s1 s2 = calculateSimilarity s2 s1 := by
  rcases s1 with _ | a
  · rcases s2 with _ | b <;> simp [calculateSimilarity, optStrTruthy]
  · rcases s2 with _ | b
    · simp [calculateSimilarity, optStrTruthy]
    · by_cases ha : a.isEmpty
      · simp [calculateSimilarity, optStrTruthy, ha]
      · by_cases hb : b.isEmpty
        · simp [calculateSimilarity, optStrTruthy, hb]
        · simp only [calculateSimilarity, optStrTruthy, Bool.not_eq_true] at ha hb
          simp only [calculateSimilarity, optStrTruthy, ha, hb, Bool.not_false, Bool.and_self,
            if_true, Option.getD_some]
          rcases Nat.lt_trichotomy a.length b.length with h | h | h
          · simp [h, (show ¬b.length < a.length by omega)]
          · have h1 : ¬a.length < b.length := by omega
            have h2 : ¬b.length < a.length := by omega
            simp [h1, h2]
            by_cases h0 : a.length = 0
            · simp [h0, show b.length = 0 by omega]
            · simp [h0, show ¬b.length = 0 by omega, editDistance_comm a b, h]
          · simp [h, (show ¬a.length < b.length by omega)]

/-- C1: every id returned by `getProjectListById` names a project of the
collection that is not archived and is owned by the caller, public, or
team-shared with the caller; for an array argument (without `'all'`) the
result stays inside the named ids; and on the concrete two-project
example a caller owning only `p1` gets exactly `["p1"]`, and an id with
no match yields `[]` without error. -/
theorem getProjectListById_scope :
    (∀ (db : List Project) (uid : String) (arg : IdArg) (pid : String),
      pid ∈ getProjectListById db uid arg →
      (∃ p ∈ db, p._id = pid ∧
        (p.userId = uid ∨ p.public = true ∨ uid ∈ p.team) ∧
        (p.archived = some false ∨ p.archived = none)) ∧
      (∀ l, arg = IdArg.many l → l.contains "all" = false → pid ∈ l))
    ∧ getProjectListById
        [⟨"p1", "u", false, [], none, none⟩, ⟨"p2", "w", false, [], none, none⟩]
        "u" (IdArg.many ["p1", "p2"]) = ["p1"]
    ∧ getProjectListById
        [⟨"p1", "u", false, [], none, none⟩, ⟨"p2", "w", false, [], none, none⟩]
        "u" (IdArg.many ["p3"]) = [] := by
  refine ⟨?_, by decide, by decide⟩
  intro db uid arg pid h
  unfold getProjectListById at h
  have visOf : ∀ p : Project, projectVisible uid p = true →
      (p.userId = uid ∨ p.public = true ∨ uid ∈ p.team) ∧
      (p.archived = some false ∨ p.archived = none) := by
    intro p hv
    unfold projectVisible at hv
    simp at hv
    tauto
  split at h
  · rename_i hall
    simp only [List.mem_map, List.mem_filter] at h
    obtain ⟨p, ⟨hp, hv⟩, rfl⟩ := h
    refine ⟨⟨p, hp, rfl, visOf p hv⟩, ?_⟩
    intro l hl hcon
    rw [hl] at hall
    simp only [IdArg.includes] at hall
    rw [hall] at hcon
    cases hcon
  · rename_i hall
    cases arg with
    | one s =>
      simp only [List.mem_map, List.mem_filter, Bool.and_eq_true, decide_eq_true_eq] at h
      obtain ⟨p, ⟨hp, hid, hv⟩, rfl⟩ := h
      exact ⟨⟨p, hp, rfl, visOf p hv⟩, fun l hl _ => by cases hl⟩
    | many l =>
      simp only [List.mem_map, List.mem_filter, Bool.and_eq_true, decide_eq_true_eq] at h
      obtain ⟨p, ⟨hp, hin, hv⟩, rfl⟩ := h
      refine ⟨⟨p, hp, rfl, visOf p hv⟩, ?_⟩
      intro l2 hl2 _
      cases hl2
      simpa using hin

/-- Witness for C1: the universally quantified part instantiated on the
concrete example database with the array `["p1", "p2"]` and the returned
id `"p1"`. -/
theorem getProjectListById_scope_witness :
    (∃ p ∈ ([⟨"p1", "u", false, [], none, none⟩,
             ⟨"p2", "w", false, [], none, none⟩] : List Project),
      p._id = "p1" ∧
      (p.userId = "u" ∨ p.public = true ∨ "u" ∈ p.team) ∧
      (p.archived = some false ∨ p.archived = none)) ∧
    (∀ l, IdArg.many ["p1", "p2"] = IdArg.many l → l.contains "all" = false → "p1" ∈ l) :=
  getProjectListById_scope.1
    [⟨"p1", "u", false, [], none, none⟩, ⟨"p2", "w", false, [], none, none⟩]
    "u" (IdArg.many ["p1", "p2"]) "p1" (by decide)

/-- C2: with a `'all'` (or absent) period and a user selector other than
`'all'`, `buildTotalHoursForPeriodSelector` leaves `matchSelector` as the
initial empty object: the pipeline's second element is the empty stage —
it contains no `$match`, no projectId restriction and no user clause
(the claimed match stage is missing; the sibling builders handle this
case with a final `else`). -/
theorem buildTotalHours_allPeriod_emptyStage :
    buildTotalHoursForPeriodSelector [] "u1" (fun _ => ⟨0, 0⟩) (IdArg.one "all")
        (some "all") ⟨0, 0⟩ (IdArg.one "u2") (IdArg.one "all") 0 none =
      [Stage.addFieldsConvertedHours, Stage.emptyStage, Stage.groupUserProject,
       Stage.sortDateDesc, Stage.skipStage 0] ∧
    buildTotalHoursForPeriodSelector [] "u1" (fun _ => ⟨0, 0⟩) (IdArg.one "all")
        none ⟨0, 0⟩ (IdArg.one "u2") (IdArg.one "all") 0 none =
      [Stage.addFieldsConvertedHours, Stage.emptyStage, Stage.groupUserProject,
       Stage.sortDateDesc, Stage.skipStage 0] :=
  ⟨by decide, by decide⟩

/-- C3 counterexample: with a customer selector other than `'all'` and a
concrete (non-`'all'`) projectId, the detailed builder resolves the
project scope from `getProjectListById` — the customer resolver's result
(`["p1"]`) is ignored and the query scope is `["p2"]`. -/
theorem detailedSelector_customerPrecedence_cex :
    ((buildDetailedTimeEntriesForPeriodSelector
        [⟨"p1", "u", false, [], none, some "c1"⟩, ⟨"p2", "u", false, [], none, some "c2"⟩]
        "u" (fun _ => ⟨0, 0⟩) (fun _ => ⟨0, 0⟩) (fun _ => 0)
        ⟨IdArg.one "p2", none, IdArg.one "c1", some "all", ⟨0, 0⟩, IdArg.one "all",
         0, none, none, none⟩).query.baseQuery.projectIds = ["p2"]) ∧
    ((getProjectListByCustomer
        [⟨"p1", "u", false, [], none, some "c1"⟩, ⟨"p2", "u", false, [], none, some "c2"⟩]
        "u" (IdArg.one "c1")).map (fun p => p._id) = ["p1"]) ∧
    ("p2" : String) ≠ "p1" :=
  ⟨by decide, by decide, by decide⟩

/-- C3 amended: the detailed builder's project scope is resolved via
`getProjectListByCustomer` exactly when the customer selector is not
`'all'` AND `projectId.includes('all')`; in every other case (including a
concrete projectId with a non-`'all'` customer) it is
`getProjectListById(projectId)`. -/
theorem detailedSelector_projectScope_amended (db : List Project) (uid : String)
    (ptd : Option String → DateRange) (parseDay : String → DateRange)
    (toNum : String → Int) (a : DetailedArgs) :
    (buildDetailedTimeEntriesForPeriodSelector db uid ptd parseDay toNum a).query.baseQuery.projectIds =
      (if !(a.customer.includes "all") && a.projectId.includes "all" then
        (getProjectListByCustomer db uid a.customer).map (fun p => p._id)
      else getProjectListById db uid a.projectId) := by
  unfold buildDetailedTimeEntriesForPeriodSelector
  cases a.filters <;> rfl

theorem totalHoursMatch_ne_limit (pl : List String) (per : Option String) (dts : DateRange)
    (ptd : Option String → DateRange) (usr : IdArg) (n : Int) :
    ¬(Stage.limitStage n = totalHoursMatch pl per dts ptd usr) := by
  unfold totalHoursMatch
  split_ifs <;> simp

theorem dailyHoursMatch_ne_limit (pl : List String) (per : Option String) (dts : DateRange)
    (ptd : Option String → DateRange) (usr : IdArg) (n : Int) :
    ¬(Stage.limitStage n = dailyHoursMatch pl per dts ptd usr) := by
  unfold dailyHoursMatch
  split_ifs <;> simp

/-- C9: pagination is uniform across the four builders: the `$skip` value
is `(page - 1) * limit` for a truthy page and `0` otherwise (absent
`options.skip` counting as 0 for the find-shaped builder), and a
`$limit` stage / `options.limit` is present exactly when `limit > 0`;
concretely `page = 2, limit = 10` gives skip `10` in every builder. -/
theorem builders_pagination :
    (∀ db uid ptd pid per dts usr cust lim pg,
      Stage.skipStage (match pg with
          | some p => if p ≠ 0 then (p - 1) * lim else 0
          | none => 0) ∈
        buildTotalHoursForPeriodSelector db uid ptd pid per dts usr cust lim pg ∧
      (Stage.limitStage lim ∈
        buildTotalHoursForPeriodSelector db uid ptd pid per dts usr cust lim pg ↔ 0 < lim))
    ∧ (∀ db uid ptd pid per dts usr cust lim pg,
      Stage.skipStage (match pg with
          | some p => if p ≠ 0 then (p - 1) * lim else 0
          | none => 0) ∈
        buildDailyHoursSelector db uid ptd pid per dts usr cust lim pg ∧
      (Stage.limitStage lim ∈
        buildDailyHoursSelector db uid ptd pid per dts usr cust lim pg ↔ 0 < lim))
    ∧ (∀ db uid ptd pid per dts usr lim pg,
      Stage.skipStage (match pg with
          | some p => if p ≠ 0 then (p - 1) * lim else 0
          | none => 0) ∈
        buildworkingTimeSelector db uid ptd pid per dts usr lim pg ∧
      (Stage.limitStage lim ∈
        buildworkingTimeSelector db uid ptd pid per dts usr lim pg ↔ 0 < lim))
    ∧ (∀ db uid ptd parseDay toNum a,
      (buildDetailedTimeEntriesForPeriodSelector db uid ptd parseDay toNum a).options.skip.getD 0 =
        (match a.page with
          | some p => if p ≠ 0 then (p - 1) * a.limit else 0
          | none => 0) ∧
      (buildDetailedTimeEntriesForPeriodSelector db uid ptd parseDay toNum a).options.limit =
        (if 0 < a.limit then some a.limit else none))
    ∧ Stage.skipStage 10 ∈ buildTotalHoursForPeriodSelector [] "u" (fun _ => ⟨0, 0⟩)
        (IdArg.one "all") none ⟨0, 0⟩ (IdArg.one "all") (IdArg.one "all") 10 (some 2)
    ∧ Stage.skipStage 10 ∈ buildDailyHoursSelector [] "u" (fun _ => ⟨0, 0⟩)
        (IdArg.one "all") none ⟨0, 0⟩ (IdArg.one "all") (IdArg.one "all") 10 (some 2)
    ∧ Stage.skipStage 10 ∈ buildworkingTimeSelector [] "u" (fun _ => ⟨0, 0⟩)
        (IdArg.one "all") none ⟨0, 0⟩ (IdArg.one "all") 10 (some 2)
    ∧ (buildDetailedTimeEntriesForPeriodSelector [] "u" (fun _ => ⟨0, 0⟩) (fun _ => ⟨0, 0⟩)
        (fun _ => 0)
        ⟨IdArg.one "all", none, IdArg.one "all", some "all", ⟨0, 0⟩, IdArg.one "all",
         10, some 2, none, none⟩).options.skip = some 10 := by
  refine ⟨?_, ?_, ?_, ?_, by decide, by decide, by decide, by decide⟩
  · intro db uid ptd pid per dts usr cust lim pg
    constructor
    · simp [buildTotalHoursForPeriodSelector, pageSkip]
    · by_cases hl : 0 < lim
      · simp [buildTotalHoursForPeriodSelector, hl]
      · simp [buildTotalHoursForPeriodSelector, hl, totalHoursMatch_ne_limit]
  · intro db uid ptd pid per dts usr cust lim pg
    constructor
    · simp [buildDailyHoursSelector, pageSkip]
    · by_cases hl : 0 < lim
      · simp [buildDailyHoursSelector, hl]
      · simp [buildDailyHoursSelector, hl, dailyHoursMatch_ne_limit]
  · intro db uid ptd pid per dts usr lim pg
    constructor
    · simp [buildworkingTimeSelector, pageSkip]
    · by_cases hl : 0 < lim
      · simp [buildworkingTimeSelector, hl]
      · simp [buildworkingTimeSelector, hl, dailyHoursMatch_ne_limit]
  · intro db uid ptd parseDay toNum a
    constructor
    · rcases hp : a.page with _ | p
      · simp [buildDetailedTimeEntriesForPeriodSelector, hp]
      · by_cases hz : p = 0
        · simp [buildDetailedTimeEntriesForPeriodSelector, hp, hz]
        · simp [buildDetailedTimeEntriesForPeriodSelector, hp, hz]
    · rfl

/-- C4 counterexample: a present but unknown `userId` (no user record at
all) passes `checkAuthentication` without an error — the claim's
"unknown actor throws" direction fails on the code
(`meteorUser?.inactive` is `undefined`, hence falsy, for a missing
record). -/
theorem checkAuthentication_unknownUser_cex :
    checkAuthentication [] ⟨some "ghost"⟩ = Except.ok () ∧
    findUser [] "ghost" = none :=
  ⟨rfl, rfl⟩

theorem checkAuthentication_cases (users : List MUser) (ctx : MethodContext) :
    checkAuthentication users ctx = Except.ok () ∨
    checkAuthentication users ctx = Except.error "notifications.auth_error_method" := by
  rcases ctx with ⟨_ | uid⟩
  · right; rfl
  · by_cases hemp : uid.isEmpty
    · right
      simp [checkAuthentication, optStrTruthy, hemp]
    · rcases hfu : findUser users uid with _ | u
      · left
        simp [checkAuthentication, optStrTruthy, hemp, hfu]
      · rcases hin : u.inactive with _ | _
        · left
          simp [checkAuthentication, optStrTruthy, hemp, hfu, hin]
        · right
          simp [checkAuthentication, optStrTruthy, hemp, hfu, hin]

/-- C4 amended: `checkAuthentication` throws the auth error exactly when
the context's `userId` is falsy (absent or empty) or the user record it
finds is marked inactive — an unknown-but-present `userId` does not
throw; and when the check throws, a method wrapped by
`authenticationMixin` returns the error with its state untouched: the
wrapped body never runs. -/
theorem checkAuthentication_gate :
    (∀ (users : List MUser) (ctx : MethodContext),
      checkAuthentication users ctx = Except.error "notifications.auth_error_method" ↔
      (optStrTruthy ctx.userId = false ∨
        ∃ uid u, ctx.userId = some uid ∧ findUser users uid = some u ∧ u.inactive = true))
    ∧ (∀ {α σ β : Type} (users : List MUser) (ctx : MethodContext)
        (run : α → σ → σ × β) (args : α) (st : σ),
        authThrew (checkAuthentication users ctx) = true →
        authenticationMixinRun users ctx run args st =
          (st, Except.error "notifications.auth_error_method")) := by
  constructor
  · intro users ctx
    rcases ctx with ⟨_ | uid⟩
    · simp [checkAuthentication, optStrTruthy]
    · by_cases hemp : uid.isEmpty
      · simp only [checkAuthentication, optStrTruthy, hemp]
        simp
      · rcases hfu : findUser users uid with _ | u
        · simp [checkAuthentication, optStrTruthy, hemp, hfu]
        · rcases hin : u.inactive with _ | _
          · simp [checkAuthentication, optStrTruthy, hemp, hfu, hin]
          · simp [checkAuthentication, optStrTruthy, hemp, hfu, hin]
  · intro α σ β users ctx run args st hthrew
    rcases checkAuthentication_cases users ctx with hok | herr
    · rw [hok] at hthrew
      cases hthrew
    · unfold authenticationMixinRun
      rw [herr]

/-- Witness for C4: the wrapped run of an unauthenticated context (no
`userId`) returns the auth error and an unchanged state for a concrete
state-mutating body. -/
theorem checkAuthentication_gate_witness :
    authenticationMixinRun [] ⟨none⟩ (fun (_ : Unit) (s : Nat) => (s + 1, s)) () 0 =
      (0, Except.error "notifications.auth_error_method") :=
  checkAuthentication_gate.2 [] ⟨none⟩ (fun (_ : Unit) (s : Nat) => (s + 1, s)) () 0 (by decide)

/-- C5: for every search string, the interpolated task pattern
`.*escaped.*` lexes into a wildcard-star, the literal characters of the
search string, and a wildcard-star (every regex metacharacter of the
input having been escaped), and matching that pattern is exactly
case-insensitive literal-substring containment; in particular the
pattern for `"a.b"` does not match `"axb"` but does match `"xa.by"`,
and a truthy search lands in the builder's `task` clause. -/
theorem taskSearch_literalSubstring :
    (∀ s t : List Char, ∃ toks,
      lexPat (taskRegexPattern (String.mk s)).data = some toks ∧
      rmatch toks t = ciContains s t)
    ∧ lexPat (taskRegexPattern "a.b").data =
        some [RTok.starAny, RTok.lit 'a', RTok.lit '.', RTok.lit 'b', RTok.starAny]
    ∧ rmatch [RTok.starAny, RTok.lit 'a', RTok.lit '.', RTok.lit 'b', RTok.starAny]
        "axb".data = false
    ∧ rmatch [RTok.starAny, RTok.lit 'a', RTok.lit '.', RTok.lit 'b', RTok.starAny]
        "xa.by".data = true
    ∧ (buildDetailedTimeEntriesForPeriodSelector [] "u" (fun _ => ⟨0, 0⟩) (fun _ => ⟨0, 0⟩)
        (fun _ => 0)
        ⟨IdArg.one "all", some "a.b", IdArg.one "all", some "all", ⟨0, 0⟩, IdArg.one "all",
         0, none, none, none⟩).query.baseQuery.task = some (taskRegexPattern "a.b") :=
  ⟨fun s t => ⟨RTok.starAny :: (s.map RTok.lit ++ [RTok.starAny]),
      lexPat_taskPattern s, rmatch_taskToks s t⟩,
    by decide, by decide, by decide, by decide⟩

/-- C6: on profile-supplied settings the mapper behaves as specified —
start 09:00 with totalTime 4 (break 12:00, duration 1, no added break)
gives endTime 13:00 with break fields 12:00/13:00, and totalTime 2 gives
endTime 11:00 with empty break fields — but when a setting is missing
from the profile the source falls back to an unawaited
`getGlobalSettingAsync` Promise, so with global breakStartTime/duration
configured the mapper still emits empty break fields (endTime 17:00 is
after the configured 12:00 break start; the claim expects populated
break fields from the global fallback). -/
theorem workingTimeEntriesMapper_eval :
    workingTimeEntriesMapper
        [⟨"u1", false, some ⟨some "Ada", some "09:00", some "12:00", some 1, some 8⟩⟩]
        false ⟨"u1", "2024-01-01", 4⟩ =
      ⟨"2024-01-01", some "Ada", some "09:00", "12:00", "13:00", "13:00", 4, some 8,
        some (-4)⟩ ∧
    workingTimeEntriesMapper
        [⟨"u1", false, some ⟨some "Ada", some "09:00", some "12:00", some 1, some 8⟩⟩]
        false ⟨"u1", "2024-01-01", 2⟩ =
      ⟨"2024-01-01", some "Ada", some "09:00", "", "", "11:00", 2, some 8, some (-6)⟩ ∧
    (workingTimeEntriesMapper
        [⟨"u2", false, some ⟨some "Bob", some "09:00", none, none, some 8⟩⟩]
        false ⟨"u2", "2024-01-01", 8⟩).endTime = "17:00" ∧
    (workingTimeEntriesMapper
        [⟨"u2", false, some ⟨some "Bob", some "09:00", none, none, some 8⟩⟩]
        false ⟨"u2", "2024-01-01", 8⟩).breakStartTime = "" ∧
    (workingTimeEntriesMapper
        [⟨"u2", false, some ⟨some "Bob", some "09:00", none, none, some 8⟩⟩]
        false ⟨"u2", "2024-01-01", 8⟩).breakEndTime = "" :=
  ⟨by decide, by decide, by decide, by decide, by decide⟩
